import Mathlib

/-!
Verification of the path-routing and dispatch engine of go-httpd
(package `route`: cond.go, route.go, router.go, match.go).

Strings are modelled as `List Char` (`Str`).  The compiled regular
expression that `Route.Parse` assembles is modelled structurally: it is a
start-anchored sequence of quoted literal chunks and single capture
groups, optionally end-anchored.  Capture-group bodies are modelled for
the character-class fragment `[...]+` / `[^...]+` actually used by route
patterns (the default variable pattern `[^/]+` and custom classes such as
`[0-9]+`); `regexp.Compile` failure is modelled as rejection of a body
outside this fragment.  Matching implements the leftmost, greedy
(longest-repetition-first, backtracking) semantics that Go's regexp
engine has on this fragment.
-/

deriving instance DecidableEq for Except

namespace GoHttpd

/-- Strings of the Go source, modelled as lists of characters. -/
abbrev Str := List Char

/-- Whitespace recognized by Go's `strings.TrimSpace` (ASCII part):
space, \t, \n, \v, \f, \r. -/
def isSpaceChar (c : Char) : Bool :=
  c = ' ' || c = '\t' || c = '\n' || c = '\x0b' || c = '\x0c' || c = '\r'

/-- Whitespace of the regexp class `\s`: [\t\n\f\r ]. -/
def isPerlSpace (c : Char) : Bool :=
  c = '\t' || c = '\n' || c = '\x0c' || c = '\r' || c = ' '

/-- Characters of the cutset in `strings.Trim(pathPattern[:i], "| \t\r\n")`. -/
def isCondTrimChar (c : Char) : Bool :=
  c = '|' || c = ' ' || c = '\t' || c = '\r' || c = '\n'

/-- Trim characters satisfying `p` from both ends (model of `strings.Trim`
and, with `isSpaceChar`, of `strings.TrimSpace`). -/
def trimBy (p : Char → Bool) (s : Str) : Str :=
  (s.dropWhile p).rdropWhile p

def trimSpace (s : Str) : Str := trimBy isSpaceChar s

/-- Model of `reSplitOR.Split(condstr, -1)` where `reSplitOR` is
`\s*\|\s*`: splitting on that regex is splitting at each `|` with the
adjacent `\s` runs absorbed into the separator, i.e. splitting on `'|'`
and trimming `\s`-whitespace off every piece. -/
def splitPipe (s : Str) : List Str :=
  (s.splitOn '|').map (trimBy isPerlSpace)

/-! ## Condition Set (cond.go) -/

/-- `CondFlags` is `uint64` in the source; only the nine low method bits
are ever set by the package itself. -/
abbrev CondFlags := Nat

def CondMethodGET     : CondFlags := 1
def CondMethodCONNECT : CondFlags := 2
def CondMethodDELETE  : CondFlags := 4
def CondMethodHEAD    : CondFlags := 8
def CondMethodOPTIONS : CondFlags := 16
def CondMethodPATCH   : CondFlags := 32
def CondMethodPOST    : CondFlags := 64
def CondMethodPUT     : CondFlags := 128
def CondMethodTRACE   : CondFlags := 256

/-- Model of `CondFlags.String`: the chain of `if`-blocks appending
`"|NAME"` for each set bit in the source's fixed order, then dropping the
leading `'|'` (`b[1:]`); `0` and an empty build render as `"*"`. -/
def condString (fl : CondFlags) : Str :=
  if fl = 0 then "*".data
  else
    let b : Str :=
      (if fl &&& CondMethodGET ≠ 0 then "|GET".data else []) ++
      (if fl &&& CondMethodCONNECT ≠ 0 then "|CONNECT".data else []) ++
      (if fl &&& CondMethodDELETE ≠ 0 then "|DELETE".data else []) ++
      (if fl &&& CondMethodHEAD ≠ 0 then "|HEAD".data else []) ++
      (if fl &&& CondMethodOPTIONS ≠ 0 then "|OPTIONS".data else []) ++
      (if fl &&& CondMethodPATCH ≠ 0 then "|PATCH".data else []) ++
      (if fl &&& CondMethodPOST ≠ 0 then "|POST".data else []) ++
      (if fl &&& CondMethodPUT ≠ 0 then "|PUT".data else []) ++
      (if fl &&& CondMethodTRACE ≠ 0 then "|TRACE".data else [])
    if b = [] then "*".data else b.tail

/-- The error kinds of the package, one constructor per distinct
`fmt.Errorf` site (section 7 of the spec names them). -/
inductive RouteError where
  | missingPathSeparator (pattern : Str)
  | emptyPattern
  | invalidCondition (tok : Str)
  | duplicateVar (name : Str)
  | invalidPatternSyntax (body : Str)
  | outsideBasePath (path basePath : Str)
  deriving Repr, DecidableEq

/-- One token of `ParseCondFlags`' switch statement. -/
def parseCondTok (f : CondFlags) (tok : Str) : Except RouteError CondFlags :=
  if tok = "GET".data then .ok (f ||| CondMethodGET)
  else if tok = "CONNECT".data then .ok (f ||| CondMethodCONNECT)
  else if tok = "DELETE".data then .ok (f ||| CondMethodDELETE)
  else if tok = "HEAD".data then .ok (f ||| CondMethodHEAD)
  else if tok = "OPTIONS".data then .ok (f ||| CondMethodOPTIONS)
  else if tok = "PATCH".data then .ok (f ||| CondMethodPATCH)
  else if tok = "POST".data then .ok (f ||| CondMethodPOST)
  else if tok = "PUT".data then .ok (f ||| CondMethodPUT)
  else if tok = "TRACE".data then .ok (f ||| CondMethodTRACE)
  else .error (.invalidCondition tok)

def parseCondLoop (f : CondFlags) : List Str → Except RouteError CondFlags
  | [] => .ok f
  | tok :: rest =>
    match parseCondTok f tok with
    | .ok f' => parseCondLoop f' rest
    | .error e => .error e

/-- Model of `ParseCondFlags`: the `["*"]` special case, then the loop. -/
def ParseCondFlags (tokens : List Str) : Except RouteError CondFlags :=
  match tokens with
  | [t] => if t = "*".data then .ok 0 else parseCondLoop 0 [t]
  | _ => parseCondLoop 0 tokens

/-! ## Compiled patterns (the regexp fragment assembled by route.go) -/

/-- One item of a character class: a single character or a range. -/
inductive ClassItem where
  | single (c : Char)
  | range (lo hi : Char)
  deriving Repr, DecidableEq

/-- A capture-group body of the form `[items]+` (or `[^items]+`), the
regexp fragment route patterns use (`[^/]+` is the default body). -/
structure GroupPat where
  neg : Bool
  items : List ClassItem
  deriving Repr, DecidableEq

def ClassItem.matchesChar : ClassItem → Char → Bool
  | .single a, c => c = a
  | .range lo hi, c => lo ≤ c && c ≤ hi

def GroupPat.matchesChar (g : GroupPat) (c : Char) : Bool :=
  let inClass := g.items.any (·.matchesChar c)
  if g.neg then !inClass else inClass

/-- An element of the assembled pattern: a `regexp.QuoteMeta`-quoted
literal chunk (matched verbatim) or one capture group. -/
inductive PatElem where
  | lit (s : Str)
  | group (g : GroupPat)
  deriving Repr, DecidableEq

/-- The compiled matcher: `^` + elements + (`$` unless the route is a
prefix route).  The start anchor is implicit in the matching function. -/
structure RoutePattern where
  elems : List PatElem
  anchorEnd : Bool
  deriving Repr, DecidableEq

/-- A character allowed verbatim inside a modelled character class. -/
def classPlainChar (c : Char) : Bool :=
  c ≠ '\\' && c ≠ '[' && c ≠ ']' && c ≠ '^'

/-- Parse the items of a character class up to the closing `]`,
returning the items and the remainder after `]`. -/
def parseClassItems : Str → Option (List ClassItem × Str)
  | [] => none
  | ']' :: rest => some ([], rest)
  | a :: '-' :: b :: rest =>
    if classPlainChar a && classPlainChar b then
      (parseClassItems rest).map (fun p => (.range a b :: p.1, p.2))
    else none
  | a :: rest =>
    if classPlainChar a then
      (parseClassItems rest).map (fun p => (.single a :: p.1, p.2))
    else none

/-- Model of compiling one capture-group body: accepts exactly the
`[...]+` / `[^...]+` character-class fragment; anything else is treated
as a failing `regexp.Compile` (`InvalidPatternSyntax`). -/
def parseGroupPat (body : Str) : Option GroupPat :=
  match body with
  | '[' :: '^' :: rest =>
    match parseClassItems rest with
    | some (items, ['+']) => if items = [] then none else some ⟨true, items⟩
    | _ => none
  | '[' :: rest =>
    match parseClassItems rest with
    | some (items, ['+']) => if items = [] then none else some ⟨false, items⟩
    | _ => none
  | _ => none

/-- Greedy matching of one `[class]+` group: try the repetition length
`k, k-1, ..., 1` (longest first, as the backtracking engine does for a
greedy `+`), keeping a length only if every consumed character is in the
class and the continuation `cont` accepts the rest. -/
def tryGroupLen (g : GroupPat) (s : Str) (cont : Str → Option (List Str × Str)) :
    Nat → Option (List Str × Str)
  | 0 => none
  | k + 1 =>
    if (s.take (k + 1)).all g.matchesChar then
      match cont (s.drop (k + 1)) with
      | some (caps, rem) => some (s.take (k + 1) :: caps, rem)
      | none => tryGroupLen g s cont k
    else tryGroupLen g s cont k

/-- Match a start-anchored element sequence against `s`.  Returns the
captures (one per group, in element order) and the unconsumed suffix;
with `anchorEnd` the suffix must be empty. -/
def matchSeq : List PatElem → Str → Bool → Option (List Str × Str)
  | [], s, anchorEnd => if anchorEnd then (if s = [] then some ([], []) else none) else some ([], s)
  | .lit l :: es, s, anchorEnd =>
    if l.isPrefixOf s then matchSeq es (s.drop l.length) anchorEnd else none
  | .group g :: es, s, anchorEnd =>
    tryGroupLen g s (fun s' => matchSeq es s' anchorEnd) s.length

/-- Model of `Pattern.FindStringSubmatch` on the assembled pattern:
`none` when there is no match, otherwise the full match followed by the
captures. -/
def findStringSubmatch (p : RoutePattern) (s : Str) : Option (List Str) :=
  match matchSeq p.elems s p.anchorEnd with
  | some (caps, rem) => some (s.take (s.length - rem.length) :: caps)
  | none => none

def countGroups (es : List PatElem) : Nat :=
  es.countP (fun e => match e with | .group _ => true | _ => false)

/-! ## Variable scanning (reMatchVars) -/

/-- One occurrence of `{name}` / `{name:custom}` in a path pattern:
`custom = some v` exactly when the `:` alternative of `reMatchVars`
participated (`v` may be empty, as in `{x:}`). -/
structure VarOcc where
  name : Str
  custom : Option Str
  deriving Repr, DecidableEq

/-- `\w` of the variable regexp: `[0-9A-Za-z_]`. -/
def isWordChar (c : Char) : Bool :=
  c.isAlphanum || c = '_'

/-- Try to match `reMatchVars` = `\{(?P<key>\w+)(?:\:\s*(?P<value>[^\}]*)|)\s*\}`
at the start of `s`; on success return the occurrence and the rest of the
string after the match.  The key is the maximal `\w+` run (a shorter key
leaves a word character which neither `\:` nor `\s*\}` accepts); with a
`:` present the greedy `[^\}]*` value runs to the next `}` and the empty
alternative cannot rescue a failure. -/
def tryVar (s : Str) : Option (VarOcc × Str) :=
  match s with
  | '{' :: s1 =>
    let name := s1.takeWhile isWordChar
    if name = [] then none
    else
      match s1.drop name.length with
      | ':' :: s3 =>
        let s4 := s3.dropWhile isPerlSpace
        let v := s4.takeWhile (· ≠ '}')
        match s4.drop v.length with
        | '}' :: rest => some (⟨name, some v⟩, rest)
        | _ => none
      | s2 =>
        match s2.dropWhile isPerlSpace with
        | '}' :: rest => some (⟨name, none⟩, rest)
        | _ => none
  | _ => none

theorem length_dropWhile_le (p : Char → Bool) (l : Str) :
    (l.dropWhile p).length ≤ l.length :=
  (List.dropWhile_suffix p).length_le

theorem tryVar_rest_length {s : Str} {occ : VarOcc} {rest : Str}
    (h : tryVar s = some (occ, rest)) : rest.length < s.length := by
  unfold tryVar at h
  split at h
  case _ s1 =>
    simp only [] at h
    split at h
    · exact absurd h (by simp)
    · split at h
      case _ s3 heq3 =>
        have h3 : s3.length < s1.length := by
          have h1 := congrArg List.length heq3
          rw [List.length_drop] at h1
          simp only [List.length_cons] at h1
          omega
        split at h
        case _ r heqr =>
          have hr : r.length < s3.length + 1 := by
            have h1 := congrArg List.length heqr
            rw [List.length_drop] at h1
            have h4 := length_dropWhile_le isPerlSpace s3
            simp only [List.length_cons] at h1
            omega
          rw [Option.some.injEq, Prod.mk.injEq] at h
          obtain ⟨-, hrest⟩ := h
          subst hrest
          simp only [List.length_cons]
          omega
        case _ => exact absurd h (by simp)
      case _ s2 heq2 =>
        have h2 : (s1.drop (s1.takeWhile isWordChar).length).length ≤ s1.length := by
          rw [List.length_drop]; omega
        split at h
        case _ r heqr =>
          have hr : r.length < s1.length + 1 := by
            have h4 := length_dropWhile_le isPerlSpace
              (s1.drop (s1.takeWhile isWordChar).length)
            rw [heqr] at h4
            simp only [List.length_cons] at h4
            omega
          rw [Option.some.injEq, Prod.mk.injEq] at h
          obtain ⟨-, hrest⟩ := h
          subst hrest
          simp only [List.length_cons]
          omega
        case _ => exact absurd h (by simp)
  case _ => exact absurd h (by simp)


/-- Model of `reMatchVars.FindAllSubmatchIndex` together with the
chunk-slicing done by the loop in `Route.Parse`: scan left to right for
non-overlapping leftmost matches of the variable regexp; return, for
each occurrence, the plain chunk preceding it (`pathPattern[plainStart:varStart]`)
paired with the occurrence, plus the trailing plain chunk
(`pathPattern[plainStart:]`).  `acc` holds the plain characters gathered
since the last occurrence, in reverse. -/
def scanVarsAux (fuel : Nat) (acc : Str) (s : Str) : List (Str × VarOcc) × Str :=
  match fuel with
  | 0 => ([], acc.reverse ++ s)
  | fuel + 1 =>
    match s with
    | [] => ([], acc.reverse)
    | c :: cs =>
      match tryVar s with
      | some (occ, rest) =>
        let (l, t) := scanVarsAux fuel [] rest
        ((acc.reverse, occ) :: l, t)
      | none => scanVarsAux fuel (c :: acc) cs

/-- Entered with `fuel = s.length` the fuel never runs out: each step
consumes at least one character (`tryVar_rest_length`) and one unit of
fuel, so the `fuel = 0` branch is reached only with `s = []`, where it
agrees with the `s = []` branch. -/
def scanVars (s : Str) : List (Str × VarOcc) × Str :=
  scanVarsAux s.length [] s

/-! ## Route (route.go) -/

/-- `defaultVarPattern`: the implicit body of `{name}`. -/
def defaultVarPattern : Str := "[^/]+".data

/-- The compiled `Route`.  `Vars` is Go's `map[string]int` (name to
capture position), modelled as an association list in insertion order;
`Handler` is the opaque `interface{}` reference, modelled as `Nat`. -/
structure Route where
  Conditions : CondFlags := 0
  Pattern : Option RoutePattern := none
  Vars : List (Str × Nat) := []
  EntryPrefix : Str := []
  IsPrefix : Bool := false
  Handler : Nat := 0
  deriving Repr, DecidableEq

/-- The head of `Route.Parse`: trim, require a `'/'`
(`MissingPathSeparator`), split off and tokenize the condition clause,
and perform the (unreachable) empty-pattern check.  Returns the
condition tokens and the remaining path pattern. -/
def splitRule (text : Str) : Except RouteError (List Str × Str) :=
  let pathPattern := trimSpace text
  match pathPattern.findIdx? (· = '/') with
  | none => .error (.missingPathSeparator pathPattern)
  | some i =>
    let condstr := trimBy isCondTrimChar (pathPattern.take i)
    let (conditions, pathPattern) :=
      if condstr ≠ [] then (splitPipe condstr, pathPattern.drop i)
      else (([] : List Str), pathPattern)
    if pathPattern = [] then .error .emptyPattern
    else .ok (conditions, pathPattern)

/-- The suffix rules of `Route.Parse`: a trailing `'/'` marks a prefix
route; a trailing `'!'` is stripped. -/
def applySuffix (pathPattern : Str) : Bool × Str :=
  match pathPattern.getLast? with
  | some '/' => (true, pathPattern)
  | some '!' => (false, pathPattern.dropLast)
  | _ => (false, pathPattern)

/-- A raw element of the assembled pattern text before `regexp.Compile`:
a `QuoteMeta`-quoted chunk or a capture-group body `(body)`. -/
inductive RawElem where
  | lit (s : Str)
  | group (body : Str)
  deriving Repr, DecidableEq

/-- The variable loop of `Route.Parse`: for each occurrence, append the
preceding plain chunk (quoted) and the capture group (the custom body
when present and non-empty, else `defaultVarPattern`), record named
variables with their occurrence index, and fail with `DuplicateVariable`
on a repeated name other than `"_"`. -/
def collectVars (pairs : List (Str × VarOcc)) (varIndex : Nat) (vars : List (Str × Nat)) :
    Except RouteError (List RawElem × List (Str × Nat)) :=
  match pairs with
  | [] => .ok ([], vars)
  | (chunk, occ) :: rest =>
    let pat := match occ.custom with
      | some v => if v = [] then defaultVarPattern else v
      | none => defaultVarPattern
    if occ.name ≠ "_".data ∧ (vars.lookup occ.name).isSome then
      .error (.duplicateVar occ.name)
    else
      let vars' := if occ.name ≠ "_".data then vars ++ [(occ.name, varIndex)] else vars
      match collectVars rest (varIndex + 1) vars' with
      | .error e => .error e
      | .ok (elems, varsOut) =>
        .ok ((if chunk ≠ [] then [RawElem.lit chunk] else []) ++ RawElem.group pat :: elems, varsOut)

/-- Model of `regexp.Compile` on the assembled pattern: quoted literal
chunks always compile (to themselves, matched verbatim); every group
body must lie in the supported class fragment. -/
def compileElems : List RawElem → Except RouteError (List PatElem)
  | [] => .ok []
  | .lit s :: rest =>
    match compileElems rest with
    | .error e => .error e
    | .ok es => .ok (.lit s :: es)
  | .group body :: rest =>
    match parseGroupPat body with
    | none => .error (.invalidPatternSyntax body)
    | some g =>
      match compileElems rest with
      | .error e => .error e
      | .ok es => .ok (.group g :: es)

/-- Model of `Route.Parse` (route.go): parse the rule text into a
compiled `Route`. -/
def Route.Parse (text : Str) : Except RouteError Route :=
  match splitRule text with
  | .error e => .error e
  | .ok (conditions, pathPattern) =>
    match ParseCondFlags conditions with
    | .error e => .error e
    | .ok conds =>
      let (isPre, pathPattern2) := applySuffix pathPattern
      match scanVars pathPattern2 with
      | ([], _) =>
        .ok { Conditions := conds, Pattern := none, Vars := [],
              EntryPrefix := pathPattern2, IsPrefix := isPre }
      | ((firstChunk, occ0) :: morePairs, trailing) =>
        match collectVars ((firstChunk, occ0) :: morePairs) 0 [] with
        | .error e => .error e
        | .ok (rawElems, vars) =>
          let rawAll := rawElems ++ (if trailing ≠ [] then [RawElem.lit trailing] else [])
          match compileElems rawAll with
          | .error e => .error e
          | .ok es =>
            .ok { Conditions := conds,
                  Pattern := some ⟨es, !isPre⟩,
                  Vars := vars,
                  EntryPrefix := firstChunk,
                  IsPrefix := isPre }

/-! ## Match result (match.go) and Router (router.go) -/

/-- The `Match` value: the matched route, the (base-path-stripped)
request path, and the captured values (`values[1:]` of the submatch
list; empty for variable-free routes). -/
structure RMatch where
  route : Route
  Path : Str
  values : List Str
  deriving Repr, DecidableEq

/-- `Match.Values`: all variable values. -/
def RMatch.Values (m : RMatch) : List Str := m.values

/-- `Match.Vars`: variable names and values; `kv[name] = m.values[index]`
for each entry of the route's map (indices are in range for every value
produced by `Router.Match`; out-of-range reads are totalized to `[]`). -/
def RMatch.Vars (m : RMatch) : List (Str × Str) :=
  m.route.Vars.map (fun nv => (nv.1, m.values.getD nv.2 []))

/-- `Match.Var`: value of a variable by name, with an optional fallback
(Go's variadic `fallback ...string` modelled as a list). -/
def RMatch.Var (m : RMatch) (name : Str) (fallback : List Str) : Str :=
  match m.route.Vars.lookup name with
  | some i => if !m.values.isEmpty then m.values.getD i [] else fallback.headD []
  | none => fallback.headD []

structure Router where
  BasePath : Str := []
  Routes : List Route := []
  deriving Repr, DecidableEq

/-- The base-path checks at the top of `Router.Add`: `"/"` collapses to
empty; a value not starting with `'/'` gets `'/'` prepended; otherwise
all trailing `'/'` are trimmed. -/
def normalizeBasePath (bp : Str) : Str :=
  if bp.length > 0 then
    if bp = "/".data then []
    else
      match bp with
      | c :: _ => if c ≠ '/' then '/' :: bp else bp.rdropWhile (· = '/')
      | [] => bp
  else bp

/-- Model of `Router.Add`: normalize the base path, compile the rule,
and on success append the new route (the source appends a blank route
first and truncates it away on failure; the net effect on the route list
is modelled directly). -/
def Router.Add (r : Router) (pattern : Str) (handler : Nat) :
    Router × Except RouteError Route :=
  let r := { r with BasePath := normalizeBasePath r.BasePath }
  match Route.Parse pattern with
  | .error e => (r, .error e)
  | .ok route =>
    let route := { route with Handler := handler }
    ({ r with Routes := r.Routes ++ [route] }, .ok route)

/-- The condition check of the match loop: skip when the route's bitset
is non-zero and shares no bits with the request's. -/
def condMatches (flags conditions : CondFlags) : Bool :=
  !(flags ≠ 0 && flags &&& conditions = 0)

/-- The body of the match loop for one route: the condition check, the
entry-prefix cheap rejection, then the variable-free or pattern match. -/
def routeStep (route : Route) (conditions : CondFlags) (path : Str) : Option RMatch :=
  if !condMatches route.Conditions conditions then none
  else if route.EntryPrefix.length > 0 && !route.EntryPrefix.isPrefixOf path then none
  else
    match route.Pattern with
    | none =>
      if route.IsPrefix || path = route.EntryPrefix then
        some ⟨route, path, []⟩
      else none
    | some p =>
      let values := (findStringSubmatch p path).getD []
      if values.length = 1 + route.Vars.length then
        some ⟨route, path, values.tail⟩
      else none

/-- The linear scan of the match loop, in registration order. -/
def scanRoutes (routes : List Route) (conditions : CondFlags) (path : Str) : Option RMatch :=
  match routes with
  | [] => none
  | route :: rest =>
    match routeStep route conditions path with
    | some m => some m
    | none => scanRoutes rest conditions path

/-- Model of `Router.Match`: require and strip the base path when one is
configured (`OutsideBasePath` otherwise), then scan; `ok none` is the
"no route found" outcome. -/
def Router.Match (r : Router) (conditions : CondFlags) (path : Str) :
    Except RouteError (Option RMatch) :=
  if r.BasePath.length > 0 then
    if r.BasePath.isPrefixOf path then
      .ok (scanRoutes r.Routes conditions (path.drop r.BasePath.length))
    else .error (.outsideBasePath path r.BasePath)
  else .ok (scanRoutes r.Routes conditions path)

/-! ## General lemmas -/

theorem Match_eq_scan (r : Router) (conds : CondFlags) (path : Str)
    (h : r.BasePath.isPrefixOf path = true) :
    r.Match conds path = .ok (scanRoutes r.Routes conds (path.drop r.BasePath.length)) := by
  unfold Router.Match
  by_cases h0 : r.BasePath.length > 0
  · simp only [h0, if_pos, h, if_true]
  · have hnil : r.BasePath = [] := by
      cases hbp : r.BasePath with
      | nil => rfl
      | cons c cs => rw [hbp] at h0; simp at h0
    simp [hnil]

/-! ## C1 -/

/-- C1: the claim says a route declaring an anonymous `"_"` variable still
matches every path its compiled pattern accepts, the submatch-count test
counting anonymous variables.  The code compares the submatch count with
`1 + len(route.Vars)` where `Vars` excludes `"_"`, so such a route never
matches: for the rule `"/x/{_}"` and the path `"/x/a"` the compiled
pattern yields 2 submatches but `1 + len(Vars) = 1`, and `Match` returns
"no match" although the pattern accepts the path. -/
theorem c1_anonymous_var_breaks_matching :
    ∃ r p,
      Route.Parse "/x/\x7b_\x7d".data = .ok r ∧
      r.Pattern = some p ∧
      r.Vars = [] ∧
      (findStringSubmatch p "/x/a".data).map List.length = some 2 ∧
      routeStep r 0 "/x/a".data = none ∧
      Router.Match ⟨[], [r]⟩ 0 "/x/a".data = .ok none :=
  ⟨{ Conditions := 0,
     Pattern := some ⟨[.lit "/x/".data, .group ⟨true, [.single '/']⟩], true⟩,
     Vars := [], EntryPrefix := "/x/".data, IsPrefix := false, Handler := 0 },
   ⟨[.lit "/x/".data, .group ⟨true, [.single '/']⟩], true⟩,
   by decide⟩

/-! ## C2 -/

/-- C2 counterexample: the claim as stated ("the table is left exactly as
it was before the call") is false: `Add` normalizes `BasePath` before
compiling, so a failing `Add` on a table with `BasePath = "api"` returns
the compilation error but leaves the table with `BasePath = "/api"`. -/
theorem c2_counterexample :
    (Router.Add ⟨"api".data, []⟩ "nopath".data 0).2 =
      .error (.missingPathSeparator "nopath".data) ∧
    (Router.Add ⟨"api".data, []⟩ "nopath".data 0).1 ≠ ⟨"api".data, []⟩ ∧
    (Router.Add ⟨"api".data, []⟩ "nopath".data 0).1.Routes = [] := by
  decide

/-- C2 amended: when compilation of `ruleText` fails, `Add` returns the
compilation error and no route, and the route sequence is unchanged — no
partial insert survives; the base path, however, may have been
normalized by the call. -/
theorem c2_add_failure_no_partial_insert (r : Router) (pattern : Str) (handler : Nat)
    (e : RouteError) (h : Route.Parse pattern = .error e) :
    (Router.Add r pattern handler).2 = .error e ∧
    (Router.Add r pattern handler).1.Routes = r.Routes ∧
    (Router.Add r pattern handler).1.BasePath = normalizeBasePath r.BasePath := by
  unfold Router.Add
  simp [h]

theorem c2_add_failure_no_partial_insert_witness :
    Route.Parse "nopath".data = .error (.missingPathSeparator "nopath".data) ∧
    ((Router.Add ⟨"api".data, []⟩ "nopath".data 0).2 =
        .error (.missingPathSeparator "nopath".data) ∧
      (Router.Add ⟨"api".data, []⟩ "nopath".data 0).1.Routes = [] ∧
      (Router.Add ⟨"api".data, []⟩ "nopath".data 0).1.BasePath =
        normalizeBasePath "api".data) :=
  ⟨by decide,
   c2_add_failure_no_partial_insert ⟨"api".data, []⟩ "nopath".data 0
     (.missingPathSeparator "nopath".data) (by decide)⟩

/-! ## C5 -/

/-- C5: with a non-empty configured base path, a path outside the base
path is a real `OutsideBasePath` error, while a path inside the base
path that matches no registered route is the non-error "no match"
result `ok none`; the two outcomes are distinct values. -/
theorem c5_outside_base_path_vs_no_match (r : Router) (conds : CondFlags) (path : Str)
    (hbp : r.BasePath ≠ []) :
    (r.BasePath.isPrefixOf path = false →
      r.Match conds path = .error (.outsideBasePath path r.BasePath)) ∧
    (r.BasePath.isPrefixOf path = true →
      scanRoutes r.Routes conds (path.drop r.BasePath.length) = none →
      r.Match conds path = .ok none) ∧
    (Except.error (RouteError.outsideBasePath path r.BasePath) ≠
      (.ok none : Except RouteError (Option RMatch))) := by
  have hlen : r.BasePath.length > 0 := List.length_pos.mpr hbp
  refine ⟨fun hout => ?_, fun hin hscan => ?_, by simp⟩
  · unfold Router.Match
    simp only [hlen, if_pos, hout]
    simp
  · rw [Match_eq_scan r conds path hin, hscan]

theorem c5_outside_base_path_vs_no_match_witness :
    ("/api".data : Str) ≠ [] ∧
    ((("/api".data : Str).isPrefixOf "/other/widgets/".data = false →
      Router.Match ⟨"/api".data, []⟩ 1 "/other/widgets/".data =
        .error (.outsideBasePath "/other/widgets/".data "/api".data)) ∧
    (("/api".data : Str).isPrefixOf "/other/widgets/".data = true →
      scanRoutes [] 1 ("/other/widgets/".data.drop ("/api".data : Str).length) = none →
      Router.Match ⟨"/api".data, []⟩ 1 "/other/widgets/".data = .ok none) ∧
    (Except.error (RouteError.outsideBasePath "/other/widgets/".data "/api".data) ≠
      (.ok none : Except RouteError (Option RMatch)))) :=
  ⟨by decide, c5_outside_base_path_vs_no_match ⟨"/api".data, []⟩ 1 "/other/widgets/".data
    (by decide)⟩

/-! ## C7 -/

theorem parseCondTok_error_shape {f : CondFlags} {tok : Str} {e : RouteError}
    (h : parseCondTok f tok = .error e) : ∃ t, e = .invalidCondition t := by
  unfold parseCondTok at h
  repeat' split at h
  all_goals
    first
    | exact Except.noConfusion h
    | (rw [Except.error.injEq] at h; exact ⟨tok, h.symm⟩)

theorem parseCondLoop_error_shape {f : CondFlags} {toks : List Str} {e : RouteError}
    (h : parseCondLoop f toks = .error e) : ∃ t, e = .invalidCondition t := by
  induction toks generalizing f with
  | nil => simp [parseCondLoop] at h
  | cons tok rest ih =>
    unfold parseCondLoop at h
    split at h
    · exact ih h
    · rename_i e' he'
      rw [Except.error.injEq] at h
      subst h
      exact parseCondTok_error_shape he'

theorem ParseCondFlags_error_shape {toks : List Str} {e : RouteError}
    (h : ParseCondFlags toks = .error e) : ∃ t, e = .invalidCondition t := by
  unfold ParseCondFlags at h
  split at h
  · split at h
    · simp at h
    · exact parseCondLoop_error_shape h
  · exact parseCondLoop_error_shape h

theorem collectVars_error_shape {pairs : List (Str × VarOcc)} {i : Nat}
    {vars : List (Str × Nat)} {e : RouteError}
    (h : collectVars pairs i vars = .error e) : ∃ n, e = .duplicateVar n := by
  induction pairs generalizing i vars with
  | nil => simp [collectVars] at h
  | cons pr rest ih =>
    unfold collectVars at h
    simp only [] at h
    repeat' split at h
    all_goals
      first
      | exact Except.noConfusion h
      | (rw [Except.error.injEq] at h; exact ⟨pr.2.name, h.symm⟩)
      | (rw [Except.error.injEq] at h; subst h; exact ih (by assumption))

theorem compileElems_error_shape {raw : List RawElem} {e : RouteError}
    (h : compileElems raw = .error e) : ∃ b, e = .invalidPatternSyntax b := by
  induction raw with
  | nil => simp [compileElems] at h
  | cons el rest ih =>
    unfold compileElems at h
    match el with
    | .lit s =>
      simp only [] at h
      split at h
      · rename_i he
        rw [Except.error.injEq] at h
        subst h
        exact ih he
      · simp at h
    | .group body =>
      simp only [] at h
      split at h
      · rename_i hb
        rw [Except.error.injEq] at h
        exact ⟨body, h.symm⟩
      · split at h
        · rename_i he
          rw [Except.error.injEq] at h
          subst h
          exact ih he
        · simp at h

theorem splitRule_ne_emptyPattern (text : Str) :
    splitRule text ≠ .error .emptyPattern := by
  unfold splitRule
  intro h
  simp only [] at h
  split at h
  · simp at h
  · rename_i i hidx
    obtain ⟨hlt, -, -⟩ := List.findIdx?_eq_some_iff_getElem.mp hidx
    split at h
    · simp only [] at h
      split at h
      · rename_i hemp
        have hlen := congrArg List.length hemp
        rw [List.length_drop] at hlen
        simp at hlen
        omega
      · simp at h
    · simp only [] at h
      split at h
      · rename_i hemp
        rw [hemp] at hlt
        simp at hlt
      · simp at h

theorem Parse_ne_emptyPattern (text : Str) :
    Route.Parse text ≠ .error .emptyPattern := by
  unfold Route.Parse
  intro h
  split at h
  · rename_i e hsp
    rw [Except.error.injEq] at h
    subst h
    exact splitRule_ne_emptyPattern text hsp
  · split at h
    · rename_i e hc
      rw [Except.error.injEq] at h
      subst h
      obtain ⟨t, ht⟩ := ParseCondFlags_error_shape hc
      simp at ht
    · try simp only [] at h
      split at h
      · simp at h
      · split at h
        · rename_i e hcv
          rw [Except.error.injEq] at h
          subst h
          obtain ⟨n, hn⟩ := collectVars_error_shape hcv
          simp at hn
        · try simp only [] at h
          split at h
          · rename_i e hce
            rw [Except.error.injEq] at h
            subst h
            obtain ⟨b, hb⟩ := compileElems_error_shape hce
            simp at hb
          · simp at h

/-- C7 counterexample: the claim says the empty rule text `""` yields
`EmptyPattern`; in the code the `'/'` search runs first, so `""` fails
with `MissingPathSeparator`, a different error kind. -/
theorem c7_counterexample :
    Route.Parse [] = .error (.missingPathSeparator []) ∧
    RouteError.missingPathSeparator [] ≠ .emptyPattern := by
  decide

/-- C7 amended: a rule text containing no `'/'` (the empty text
included) fails with `MissingPathSeparator`; the `EmptyPattern` check is
dead code — no rule text ever produces it — and the two error kinds are
distinct constructors. -/
theorem c7_no_separator_errors (text : Str) (h : ('/' : Char) ∉ text) :
    Route.Parse text = .error (.missingPathSeparator (trimSpace text)) ∧
    Route.Parse [] = .error (.missingPathSeparator []) ∧
    (∀ t : Str, Route.Parse t ≠ .error .emptyPattern) ∧
    (∀ s : Str, RouteError.missingPathSeparator s ≠ .emptyPattern) := by
  refine ⟨?_, by decide, Parse_ne_emptyPattern, by intro s h2; simp at h2⟩
  have hinf : trimSpace text <:+: text := by
    unfold trimSpace trimBy
    exact (List.rdropWhile_prefix isSpaceChar (text.dropWhile isSpaceChar)).isInfix.trans
      (List.dropWhile_suffix isSpaceChar).isInfix
  have hnot : ('/' : Char) ∉ trimSpace text := fun hmem => h (List.IsInfix.mem hmem hinf)
  have hidx : (trimSpace text).findIdx? (· = '/') = none := by
    rw [List.findIdx?_eq_none_iff]
    intro x hx
    by_contra hc
    simp at hc
    exact hnot (hc ▸ hx)
  have hsp : splitRule text = .error (.missingPathSeparator (trimSpace text)) := by
    unfold splitRule
    try simp only []
    rw [hidx]
  unfold Route.Parse
  rw [hsp]

theorem c7_no_separator_errors_witness :
    (('/' : Char) ∉ ("nopath".data : Str)) ∧
    (Route.Parse "nopath".data = .error (.missingPathSeparator (trimSpace "nopath".data)) ∧
    Route.Parse [] = .error (.missingPathSeparator []) ∧
    (∀ t : Str, Route.Parse t ≠ .error .emptyPattern) ∧
    (∀ s : Str, RouteError.missingPathSeparator s ≠ .emptyPattern)) :=
  ⟨by decide, c7_no_separator_errors "nopath".data (by decide)⟩

/-! ## C6 -/

theorem normalizeBasePath_empty_or_head (bp : Str) :
    normalizeBasePath bp = [] ∨ (normalizeBasePath bp).head? = some '/' := by
  unfold normalizeBasePath
  match bp with
  | [] => exact Or.inl (by simp)
  | c :: cs =>
    by_cases hs : (c :: cs : Str) = "/".data
    · simp [hs]
    · simp only [hs, if_neg, List.length_cons, if_pos (Nat.succ_pos _)]
      by_cases hc : c ≠ '/'
      · simp [hc]
      · push_neg at hc
        subst hc
        simp only [ne_eq, not_true_eq_false, if_neg, ite_false]
        cases hy : List.rdropWhile (fun x => x = '/') ('/' :: cs) with
        | nil => exact Or.inl rfl
        | cons d ds =>
          right
          obtain ⟨t, ht⟩ := List.rdropWhile_prefix (fun x => x = '/') ('/' :: cs)
          rw [hy] at ht
          cases ht
          rfl

theorem normalizeBasePath_getLast (bp : Str) (h : bp.head? = some '/') :
    (normalizeBasePath bp).getLast? ≠ some '/' := by
  unfold normalizeBasePath
  match bp with
  | [] => simp at h
  | c :: cs =>
    have hc : c = '/' := by simpa using h
    subst hc
    by_cases hs : (('/' : Char) :: cs : Str) = "/".data
    · simp [hs]
    · simp only [hs, if_neg, List.length_cons, if_pos (Nat.succ_pos _), ne_eq,
        not_true_eq_false, ite_false]
      cases hy : List.rdropWhile (fun x => x = '/') ('/' :: cs) with
      | nil => simp
      | cons d ds =>
        have hne : List.rdropWhile (fun x => x = '/') ('/' :: cs) ≠ [] := by
          rw [hy]; simp
        have hlast := List.rdropWhile_last_not (fun x => x = '/') ('/' :: cs) hne
        rw [List.getLast?_eq_getLast _ (hy ▸ hne)]
        intro hcontra
        rw [Option.some.injEq] at hcontra
        apply hlast
        have : (List.rdropWhile (fun x => x = '/') ('/' :: cs)).getLast hne =
            (d :: ds).getLast (hy ▸ hne) := by
          congr 1
        rw [this, hcontra]
        simp

theorem normalizeBasePath_fixed (bp : Str)
    (h1 : bp = [] ∨ bp.head? = some '/') (h2 : bp.getLast? ≠ some '/') :
    normalizeBasePath bp = bp := by
  rcases h1 with h1 | h1
  · subst h1; rfl
  · match bp with
    | [] => rfl
    | c :: cs =>
      have hc : c = '/' := by simpa using h1
      subst hc
      have hs : (('/' : Char) :: cs : Str) ≠ "/".data := by
        intro hcontra
        apply h2
        rw [hcontra]
        rfl
      unfold normalizeBasePath
      simp only [hs, if_neg, List.length_cons, if_pos (Nat.succ_pos _), ne_eq,
        not_true_eq_false, ite_false]
      rw [List.rdropWhile_eq_self_iff]
      intro hne hp
      apply h2
      rw [List.getLast?_eq_getLast _ hne]
      simpa using hp

/-- C6 counterexample: the claim says that after a single `Add` any
non-empty base path both starts with `'/'` and does not end with `'/'`,
and that the normalization is idempotent.  For the initial base path
`"api/"` a single `Add` produces `"/api/"`, which still ends with `'/'`,
and a second application of the normalization changes it again. -/
theorem c6_counterexample :
    (Router.Add ⟨"api/".data, []⟩ "/".data 0).1.BasePath = "/api/".data ∧
    ("/api/".data : Str).getLast? = some '/' ∧
    normalizeBasePath (normalizeBasePath "api/".data) ≠ normalizeBasePath "api/".data := by
  decide

/-- C6 amended: after a single `Add` the base path equals
`normalizeBasePath` of the initial value, where `"/"` collapses to
empty; any non-empty result starts with `'/'`; an initial value that
already started with `'/'` is additionally trimmed of all trailing
`'/'` (so the result never ends in `'/'`); but an initial value not
starting with `'/'` only has `'/'` prepended and may keep a trailing
`'/'`.  The normalization is idempotent from the second application on:
a twice-normalized base path is a fixed point. -/
theorem c6_base_path_normalization (bp : Str) (routes : List Route)
    (pattern : Str) (handler : Nat) :
    (Router.Add ⟨bp, routes⟩ pattern handler).1.BasePath = normalizeBasePath bp ∧
    (bp = "/".data → normalizeBasePath bp = []) ∧
    (normalizeBasePath bp = [] ∨ (normalizeBasePath bp).head? = some '/') ∧
    (bp.head? = some '/' → (normalizeBasePath bp).getLast? ≠ some '/') ∧
    normalizeBasePath (normalizeBasePath (normalizeBasePath bp)) =
      normalizeBasePath (normalizeBasePath bp) := by
  refine ⟨?_, ?_, normalizeBasePath_empty_or_head bp, normalizeBasePath_getLast bp, ?_⟩
  · unfold Router.Add
    cases hp : Route.Parse pattern <;> rfl
  · intro h; subst h; rfl
  · rcases normalizeBasePath_empty_or_head bp with h1 | h1
    · rw [h1]; rfl
    · rcases normalizeBasePath_empty_or_head (normalizeBasePath bp) with h2 | h2
      · rw [h2]; rfl
      · exact normalizeBasePath_fixed _ (Or.inr h2)
          (normalizeBasePath_getLast (normalizeBasePath bp) h1)

theorem c6_base_path_normalization_witness :
    ((Router.Add ⟨"/api//".data, []⟩ "/x".data 0).1.BasePath =
      normalizeBasePath "/api//".data) ∧
    (normalizeBasePath "/api//".data).getLast? ≠ some '/' :=
  ⟨(c6_base_path_normalization "/api//".data [] "/x".data 0).1,
   (c6_base_path_normalization "/api//".data [] "/x".data 0).2.2.2.1 (by decide)⟩

/-! ## C8 -/

/-- The canonical method order of the spec ("fixed canonical method
order (same order used for parsing), never alphabetical"), written from
the spec's words for comparison with the source's rendering chain. -/
def canonicalMethods : List (CondFlags × Str) :=
  [(CondMethodGET, "GET".data), (CondMethodCONNECT, "CONNECT".data),
   (CondMethodDELETE, "DELETE".data), (CondMethodHEAD, "HEAD".data),
   (CondMethodOPTIONS, "OPTIONS".data), (CondMethodPATCH, "PATCH".data),
   (CondMethodPOST, "POST".data), (CondMethodPUT, "PUT".data),
   (CondMethodTRACE, "TRACE".data)]

/-- Spec-side rendering: the set methods' names joined by `"|"` in the
canonical order. -/
def canonicalRender (fl : CondFlags) : Str :=
  List.intercalate "|".data
    ((canonicalMethods.filter (fun mn => fl &&& mn.1 ≠ 0)).map (·.2))

theorem condString_roundtrip : ∀ fl : Nat, fl < 512 →
    (ParseCondFlags (splitPipe (condString fl)) = .ok fl ∧
     (fl ≠ 0 → condString fl = canonicalRender fl)) := by
  set_option maxRecDepth 100000 in decide

/-- C8: for every bitset with only defined method bits (`fl < 512`):
rendering and re-parsing the rendered tokens returns the original
bitset; `0` renders as `"*"`; a non-zero bitset renders its methods
joined by `"|"` in the fixed canonical order GET, CONNECT, DELETE,
HEAD, OPTIONS, PATCH, POST, PUT, TRACE; parsing `["*"]` and parsing the
empty token list both yield bitset `0`; and bitset `0` passes the match
loop's condition check against every request bitset. -/
theorem c8_cond_bitset_roundtrip (fl : CondFlags) (h : fl < 512) :
    ParseCondFlags (splitPipe (condString fl)) = .ok fl ∧
    condString 0 = "*".data ∧
    (fl ≠ 0 → condString fl = canonicalRender fl) ∧
    ParseCondFlags ["*".data] = .ok 0 ∧
    ParseCondFlags [] = .ok 0 ∧
    (∀ conds : CondFlags, condMatches 0 conds = true) :=
  ⟨(condString_roundtrip fl h).1, by decide, (condString_roundtrip fl h).2,
   by decide, by decide, fun conds => by simp [condMatches]⟩

theorem c8_cond_bitset_roundtrip_witness :
    ((69 : Nat) < 512) ∧
    (ParseCondFlags (splitPipe (condString 69)) = .ok 69 ∧
    condString 0 = "*".data ∧
    ((69 : CondFlags) ≠ 0 → condString 69 = canonicalRender 69) ∧
    ParseCondFlags ["*".data] = .ok 0 ∧
    ParseCondFlags [] = .ok 0 ∧
    (∀ conds : CondFlags, condMatches 0 conds = true)) :=
  ⟨by decide, c8_cond_bitset_roundtrip 69 (by decide)⟩

/-! ## C3 -/

theorem scanRoutes_first (conds : CondFlags) (p : Str) :
    ∀ (routes : List Route) (k : Nat) (rk : Route),
      routes.get? k = some rk →
      (∀ m rm, m < k → routes.get? m = some rm → routeStep rm conds p = none) →
      routeStep rk conds p ≠ none →
      scanRoutes routes conds p = routeStep rk conds p := by
  intro routes
  induction routes with
  | nil => intro k rk hk; simp at hk
  | cons r rest ih =>
    intro k rk hk hbefore hmatch
    match k with
    | 0 =>
      have hrk : rk = r := by simpa using hk.symm
      rw [hrk]
      unfold scanRoutes
      cases hstep : routeStep r conds p with
      | some m => rfl
      | none => rw [hrk] at hmatch; exact absurd hstep hmatch
    | k + 1 =>
      rw [List.get?_cons_succ] at hk
      have hr0 : routeStep r conds p = none :=
        hbefore 0 r (Nat.succ_pos k) rfl
      unfold scanRoutes
      rw [hr0]
      exact ih k rk hk
        (fun m rm hm hget => hbefore (m + 1) rm (Nat.succ_lt_succ hm) hget)
        hmatch

/-- C3: when two (or more) registered routes would each match the given
conditions and path, `Match` returns the result of the
earliest-registered matching route: there is a `k` no later than the
first of the two, whose route matches while all earlier routes do not,
and `Match` returns exactly that route's match. -/
theorem c3_first_registered_wins (r : Router) (conds : CondFlags) (path : Str)
    (i j : Nat) (ri rj : Route)
    (hbp : r.BasePath.isPrefixOf path = true)
    (hij : i < j)
    (hi : r.Routes.get? i = some ri) (hj : r.Routes.get? j = some rj)
    (hmi : routeStep ri conds (path.drop r.BasePath.length) ≠ none)
    (hmj : routeStep rj conds (path.drop r.BasePath.length) ≠ none) :
    ∃ k rk, k ≤ i ∧ r.Routes.get? k = some rk ∧
      routeStep rk conds (path.drop r.BasePath.length) ≠ none ∧
      (∀ m rm, m < k → r.Routes.get? m = some rm →
        routeStep rm conds (path.drop r.BasePath.length) = none) ∧
      r.Match conds path = .ok (some ((routeStep rk conds (path.drop r.BasePath.length)).getD
        ⟨rk, [], []⟩)) := by
  classical
  set rem := path.drop r.BasePath.length with hrem
  have hQ : ∃ m, (match r.Routes.get? m with
      | some rt => routeStep rt conds rem
      | none => none) ≠ none := ⟨i, by rw [hi]; exact hmi⟩
  let k := Nat.find hQ
  have hkQ : (match r.Routes.get? k with
      | some rt => routeStep rt conds rem
      | none => none) ≠ none := Nat.find_spec hQ
  have hki : k ≤ i := Nat.find_min' hQ (by rw [hi]; exact hmi)
  obtain ⟨rk, hgetk⟩ : ∃ rk, r.Routes.get? k = some rk := by
    cases hg : r.Routes.get? k with
    | some rt => exact ⟨rt, rfl⟩
    | none => rw [hg] at hkQ; exact absurd rfl hkQ
  rw [hgetk] at hkQ
  have hbeforek : ∀ m rm, m < k → r.Routes.get? m = some rm →
      routeStep rm conds rem = none := by
    intro m rm hm hget
    have := Nat.find_min hQ hm
    rw [hget] at this
    simpa using this
  have hscan : scanRoutes r.Routes conds rem = routeStep rk conds rem :=
    scanRoutes_first conds rem r.Routes k rk hgetk hbeforek hkQ
  refine ⟨k, rk, hki, hgetk, hkQ, hbeforek, ?_⟩
  rw [Match_eq_scan r conds path hbp, ← hrem, hscan]
  cases hstep : routeStep rk conds rem with
  | some m => rfl
  | none => exact absurd hstep hkQ

theorem c3_first_registered_wins_witness :
    ∃ k rk, k ≤ 0 ∧
      (Router.mk []
        [{ Conditions := 0,
           Pattern := some ⟨[.lit "/a/".data, .group ⟨true, [.single '/']⟩], true⟩,
           Vars := [("x".data, 0)], EntryPrefix := "/a/".data,
           IsPrefix := false, Handler := 1 },
         { Conditions := 0,
           Pattern := some ⟨[.lit "/a/".data, .group ⟨false, [.range '0' '9']⟩], true⟩,
           Vars := [("y".data, 0)], EntryPrefix := "/a/".data,
           IsPrefix := false, Handler := 2 }]).Routes.get? k = some rk ∧
      routeStep rk 0 ("/a/7".data.drop ([] : Str).length) ≠ none ∧
      (∀ m rm, m < k →
        (Router.mk []
          [{ Conditions := 0,
             Pattern := some ⟨[.lit "/a/".data, .group ⟨true, [.single '/']⟩], true⟩,
             Vars := [("x".data, 0)], EntryPrefix := "/a/".data,
             IsPrefix := false, Handler := 1 },
           { Conditions := 0,
             Pattern := some ⟨[.lit "/a/".data, .group ⟨false, [.range '0' '9']⟩], true⟩,
             Vars := [("y".data, 0)], EntryPrefix := "/a/".data,
             IsPrefix := false, Handler := 2 }]).Routes.get? m = some rm →
        routeStep rm 0 ("/a/7".data.drop ([] : Str).length) = none) ∧
      (Router.mk []
        [{ Conditions := 0,
           Pattern := some ⟨[.lit "/a/".data, .group ⟨true, [.single '/']⟩], true⟩,
           Vars := [("x".data, 0)], EntryPrefix := "/a/".data,
           IsPrefix := false, Handler := 1 },
         { Conditions := 0,
           Pattern := some ⟨[.lit "/a/".data, .group ⟨false, [.range '0' '9']⟩], true⟩,
           Vars := [("y".data, 0)], EntryPrefix := "/a/".data,
           IsPrefix := false, Handler := 2 }]).Match 0 "/a/7".data =
        .ok (some ((routeStep rk 0 ("/a/7".data.drop ([] : Str).length)).getD
          ⟨rk, [], []⟩)) :=
  c3_first_registered_wins _ 0 "/a/7".data 0 1
    { Conditions := 0,
      Pattern := some ⟨[.lit "/a/".data, .group ⟨true, [.single '/']⟩], true⟩,
      Vars := [("x".data, 0)], EntryPrefix := "/a/".data,
      IsPrefix := false, Handler := 1 }
    { Conditions := 0,
      Pattern := some ⟨[.lit "/a/".data, .group ⟨false, [.range '0' '9']⟩], true⟩,
      Vars := [("y".data, 0)], EntryPrefix := "/a/".data,
      IsPrefix := false, Handler := 2 }
    (by decide) (by decide) (by decide) (by decide) (by decide) (by decide)

/-! ## C4 -/

theorem Match_single_eq_step (rt : Route) (conds : CondFlags) (path : Str) :
    Router.Match ⟨[], [rt]⟩ conds path = .ok (routeStep rt conds path) := by
  rw [Match_eq_scan ⟨[], [rt]⟩ conds path (by simp [List.isPrefixOf])]
  simp only [List.length_nil, List.drop_zero]
  unfold scanRoutes
  cases hstep : routeStep rt conds path with
  | some m => rfl
  | none => rfl

/-- C4: for a compiled variable-free route whose condition bitset
accepts the request, `Match` selects the route exactly when the
remaining path equals the route's literal path (exact route) or has the
literal path as a prefix (subtree route). -/
theorem c4_variable_free_match (text : Str) (rt : Route) (conds : CondFlags) (path : Str)
    (hok : Route.Parse text = .ok rt) (hnv : rt.Pattern = none)
    (hcond : condMatches rt.Conditions conds = true) :
    Router.Match ⟨[], [rt]⟩ conds path = .ok (some ⟨rt, path, []⟩) ↔
      ((rt.IsPrefix = true ∧ rt.EntryPrefix <+: path) ∨
       (rt.IsPrefix = false ∧ path = rt.EntryPrefix)) := by
  rw [Match_single_eq_step, Except.ok.injEq]
  by_cases hpre : rt.EntryPrefix <+: path
  · have hpreb : rt.EntryPrefix.isPrefixOf path = true := by
      rw [List.isPrefixOf_iff_prefix]; exact hpre
    by_cases hip : rt.IsPrefix
    · simp [routeStep, hnv, hcond, hpreb, hip, hpre]
    · by_cases heq : path = rt.EntryPrefix
      · simp [routeStep, hnv, hcond, hpreb, hip, hpre, heq]
      · simp [routeStep, hnv, hcond, hpreb, hip, hpre, heq]
  · have hpreb : rt.EntryPrefix.isPrefixOf path = false := by
      rw [Bool.eq_false_iff]
      intro hb
      exact hpre (List.isPrefixOf_iff_prefix.mp hb)
    have hne : rt.EntryPrefix ≠ [] := by
      intro h0
      rw [h0] at hpre
      exact hpre (List.nil_prefix)
    have hneq : path ≠ rt.EntryPrefix := by
      intro he
      subst he
      exact hpre (List.prefix_refl _)
    have hlen : 0 < rt.EntryPrefix.length := List.length_pos.mpr hne
    by_cases hip : rt.IsPrefix <;>
      simp [routeStep, hnv, hcond, hpreb, hip, hpre, hneq, hlen]

theorem c4_variable_free_match_witness :
    Route.Parse "/foo/".data = .ok
      ⟨0, none, [], "/foo/".data, true, 0⟩ ∧
    (Router.Match ⟨[], [⟨0, none, [], "/foo/".data, true, 0⟩]⟩ 5 "/foo/bar".data =
        .ok (some ⟨⟨0, none, [], "/foo/".data, true, 0⟩, "/foo/bar".data, []⟩) ↔
      (((⟨0, none, [], "/foo/".data, true, 0⟩ : Route).IsPrefix = true ∧
          ("/foo/".data : Str) <+: "/foo/bar".data) ∨
       ((⟨0, none, [], "/foo/".data, true, 0⟩ : Route).IsPrefix = false ∧
          "/foo/bar".data = "/foo/".data))) :=
  ⟨by decide,
   c4_variable_free_match "/foo/".data ⟨0, none, [], "/foo/".data, true, 0⟩ 5
     "/foo/bar".data (by decide) (by decide) (by decide)⟩

/-! ## C10 -/

theorem matchSeq_lit_prefix {l : Str} {es : List PatElem} {s : Str} {aE : Bool} {x}
    (h : matchSeq (.lit l :: es) s aE = some x) : l.isPrefixOf s = true := by
  unfold matchSeq at h
  split at h
  · assumption
  · exact absurd h (by simp)

theorem collectVars_head_lit {chunk : Str} {occ : VarOcc} {rest : List (Str × VarOcc)}
    {i : Nat} {vars0 : List (Str × Nat)} {raw : List RawElem} {vars : List (Str × Nat)}
    (h : collectVars ((chunk, occ) :: rest) i vars0 = .ok (raw, vars))
    (hc : chunk ≠ []) : ∃ tail, raw = RawElem.lit chunk :: tail := by
  unfold collectVars at h
  try simp only [] at h
  repeat' split at h
  all_goals
    first
    | exact Except.noConfusion h
    | contradiction
    | (rw [Except.ok.injEq, Prod.mk.injEq] at h
       obtain ⟨h1, -⟩ := h
       rw [← h1]
       first
       | exact ⟨_, rfl⟩
       | (rw [if_pos hc]; exact ⟨_, rfl⟩))

theorem compileElems_lit_head {chunk : Str} {rawRest : List RawElem} {es : List PatElem}
    (h : compileElems (RawElem.lit chunk :: rawRest) = .ok es) :
    ∃ tail, es = PatElem.lit chunk :: tail := by
  unfold compileElems at h
  split at h
  · exact absurd h (by simp)
  · rename_i es' heq
    rw [Except.ok.injEq] at h
    exact ⟨es', h.symm⟩

/-- Every route produced by `Route.Parse` has its compiled pattern
anchored on its entry prefix: when the route has a pattern and a
non-empty entry prefix, the pattern's first element is that prefix as a
quoted literal. -/
theorem Parse_pattern_anchored {text : Str} {rt : Route}
    (hok : Route.Parse text = .ok rt) :
    ∀ p, rt.Pattern = some p → rt.EntryPrefix ≠ [] →
      ∃ tail, p.elems = PatElem.lit rt.EntryPrefix :: tail := by
  intro p hp hne
  unfold Route.Parse at hok
  split at hok
  · exact absurd hok (by simp)
  · split at hok
    · exact absurd hok (by simp)
    · try simp only [] at hok
      split at hok
      · rw [Except.ok.injEq] at hok
        subst hok
        simp at hp
      · rename_i firstChunk occ0 morePairs trailing hscan
        split at hok
        · exact absurd hok (by simp)
        · rename_i out hcollect
          try simp only [] at hok
          split at hok
          · exact absurd hok (by simp)
          · rename_i es hcompile
            rw [Except.ok.injEq] at hok
            subst hok
            simp only [Option.some.injEq] at hp
            obtain ⟨tail0, htail0⟩ := collectVars_head_lit hcollect hne
            rw [htail0, List.cons_append] at hcompile
            obtain ⟨tail1, htail1⟩ := compileElems_lit_head hcompile
            refine ⟨tail1, ?_⟩
            rw [← hp]
            exact htail1

/-- Modelled from the spec: the "naive scan that omits the
entry-prefix cheap rejection" that C10 compares `Match` against (the
loop body without the skip on `EntryPrefix`). -/
def naiveStep (route : Route) (conditions : CondFlags) (path : Str) : Option RMatch :=
  if !condMatches route.Conditions conditions then none
  else
    match route.Pattern with
    | none =>
      if route.IsPrefix || path = route.EntryPrefix then some ⟨route, path, []⟩
      else none
    | some p =>
      let values := (findStringSubmatch p path).getD []
      if values.length = 1 + route.Vars.length then some ⟨route, path, values.tail⟩
      else none

def naiveScan (routes : List Route) (conditions : CondFlags) (path : Str) : Option RMatch :=
  match routes with
  | [] => none
  | route :: rest =>
    match naiveStep route conditions path with
    | some m => some m
    | none => naiveScan rest conditions path

def naiveMatch (r : Router) (conditions : CondFlags) (path : Str) :
    Except RouteError (Option RMatch) :=
  if r.BasePath.length > 0 then
    if r.BasePath.isPrefixOf path then
      .ok (naiveScan r.Routes conditions (path.drop r.BasePath.length))
    else .error (.outsideBasePath path r.BasePath)
  else .ok (naiveScan r.Routes conditions path)

/-- Modelled from the spec, for the amended claim: the scan that keeps
the entry-prefix test only where it is part of variable-free matching
and omits it as a pre-filter before pattern matching. -/
def stepNoPrefilter (route : Route) (conditions : CondFlags) (path : Str) : Option RMatch :=
  if !condMatches route.Conditions conditions then none
  else
    match route.Pattern with
    | none =>
      if route.EntryPrefix.length > 0 && !route.EntryPrefix.isPrefixOf path then none
      else if route.IsPrefix || path = route.EntryPrefix then some ⟨route, path, []⟩
      else none
    | some p =>
      let values := (findStringSubmatch p path).getD []
      if values.length = 1 + route.Vars.length then some ⟨route, path, values.tail⟩
      else none

def scanNoPrefilter (routes : List Route) (conditions : CondFlags) (path : Str) : Option RMatch :=
  match routes with
  | [] => none
  | route :: rest =>
    match stepNoPrefilter route conditions path with
    | some m => some m
    | none => scanNoPrefilter rest conditions path

def matchNoPrefilter (r : Router) (conditions : CondFlags) (path : Str) :
    Except RouteError (Option RMatch) :=
  if r.BasePath.length > 0 then
    if r.BasePath.isPrefixOf path then
      .ok (scanNoPrefilter r.Routes conditions (path.drop r.BasePath.length))
    else .error (.outsideBasePath path r.BasePath)
  else .ok (scanNoPrefilter r.Routes conditions path)

/-- C10 counterexample: the claim's "naive scan that omits [the
entry-prefix check]" is NOT extensionally equal to `Match`: for the
variable-free subtree route `"/foo/"` the entry-prefix comparison IS the
match itself, so omitting it makes the route match the unrelated path
`"/bar"`. -/
theorem c10_counterexample :
    Route.Parse "/foo/".data = .ok ⟨0, none, [], "/foo/".data, true, 0⟩ ∧
    Router.Match ⟨[], [⟨0, none, [], "/foo/".data, true, 0⟩]⟩ 0 "/bar".data = .ok none ∧
    naiveMatch ⟨[], [⟨0, none, [], "/foo/".data, true, 0⟩]⟩ 0 "/bar".data =
      .ok (some ⟨⟨0, none, [], "/foo/".data, true, 0⟩, "/bar".data, []⟩) ∧
    Router.Match ⟨[], [⟨0, none, [], "/foo/".data, true, 0⟩]⟩ 0 "/bar".data ≠
      naiveMatch ⟨[], [⟨0, none, [], "/foo/".data, true, 0⟩]⟩ 0 "/bar".data := by
  decide

theorem findStringSubmatch_none_of_not_prefix {rt : Route} {p : RoutePattern} {path : Str}
    (hanch : ∀ q, rt.Pattern = some q → rt.EntryPrefix ≠ [] →
      ∃ tail, q.elems = PatElem.lit rt.EntryPrefix :: tail)
    (hp : rt.Pattern = some p) (hne : rt.EntryPrefix ≠ [])
    (hpre : rt.EntryPrefix.isPrefixOf path = false) :
    findStringSubmatch p path = none := by
  obtain ⟨tail, htail⟩ := hanch p hp hne
  unfold findStringSubmatch
  rw [htail]
  cases hm : matchSeq (PatElem.lit rt.EntryPrefix :: tail) path p.anchorEnd with
  | none => rfl
  | some x =>
    have := matchSeq_lit_prefix hm
    rw [hpre] at this
    exact absurd this (by simp)

theorem step_eq_stepNoPrefilter {rt : Route} (conds : CondFlags) (path : Str)
    (hanch : ∀ q, rt.Pattern = some q → rt.EntryPrefix ≠ [] →
      ∃ tail, q.elems = PatElem.lit rt.EntryPrefix :: tail) :
    routeStep rt conds path = stepNoPrefilter rt conds path := by
  unfold routeStep stepNoPrefilter
  by_cases hcm : condMatches rt.Conditions conds
  · simp only [hcm, Bool.not_true, Bool.false_eq_true, if_false, ite_false]
    by_cases hskip : rt.EntryPrefix.length > 0 ∧ rt.EntryPrefix.isPrefixOf path = false
    · obtain ⟨hlen, hpre⟩ := hskip
      have hne : rt.EntryPrefix ≠ [] := by
        intro h0; rw [h0] at hlen; simp at hlen
      cases hp : rt.Pattern with
      | none => simp [hlen, hpre]
      | some p =>
        have hnone := findStringSubmatch_none_of_not_prefix hanch hp hne hpre
        have hguard : (rt.EntryPrefix.length > 0 && !rt.EntryPrefix.isPrefixOf path) = true := by
          simp [hlen, hpre]
        simp [hguard, hp, hnone]
        try rw [if_neg (show ¬((0 : Nat) = 1 + rt.Vars.length) by omega)]
        try simp
    · rw [not_and_or] at hskip
      have hguard : (rt.EntryPrefix.length > 0 && !rt.EntryPrefix.isPrefixOf path) = false := by
        rcases hskip with h1 | h1
        · simp only [Bool.and_eq_false_iff]
          left
          simpa using h1
        · simp only [Bool.and_eq_false_iff]
          right
          have hb : rt.EntryPrefix.isPrefixOf path = true := by
            revert h1
            cases rt.EntryPrefix.isPrefixOf path <;> simp
          simp [hb]
      cases hp : rt.Pattern with
      | none => rw [hguard]
      | some p => rw [hguard]; rfl
  · have : (!condMatches rt.Conditions conds) = true := by simpa using hcm
    rw [this]
    simp

theorem scan_eq_scanNoPrefilter (routes : List Route) (conds : CondFlags) (path : Str)
    (hanch : ∀ rt ∈ routes, ∀ q, rt.Pattern = some q → rt.EntryPrefix ≠ [] →
      ∃ tail, q.elems = PatElem.lit rt.EntryPrefix :: tail) :
    scanRoutes routes conds path = scanNoPrefilter routes conds path := by
  induction routes with
  | nil => rfl
  | cons r rest ih =>
    unfold scanRoutes scanNoPrefilter
    rw [step_eq_stepNoPrefilter conds path (hanch r (by simp))]
    cases stepNoPrefilter r conds path with
    | some m => rfl
    | none => exact ih (fun rt hrt => hanch rt (List.mem_cons_of_mem r hrt))

/-- C10 amended: the entry-prefix cheap rejection never changes the
outcome for routes WITH a compiled pattern — if such a route is skipped
because its non-empty entry prefix is not a prefix of the path, its
anchored pattern (which begins with that same quoted literal) cannot
match the path either, so `Match` equals the scan that omits the
pre-filter for pattern routes.  (For variable-free routes the
entry-prefix comparison is the match itself and cannot be omitted, as
the counterexample shows.) -/
theorem c10_prefilter_redundant_for_pattern_routes (r : Router) (conds : CondFlags)
    (path : Str)
    (hwf : ∀ rt ∈ r.Routes, ∃ text hdl, Route.Parse text = .ok { rt with Handler := hdl }) :
    (∀ rt ∈ r.Routes, ∀ p, rt.Pattern = some p → rt.EntryPrefix ≠ [] →
      rt.EntryPrefix.isPrefixOf path = false → findStringSubmatch p path = none) ∧
    r.Match conds path = matchNoPrefilter r conds path := by
  have hanch : ∀ rt ∈ r.Routes, ∀ q, rt.Pattern = some q → rt.EntryPrefix ≠ [] →
      ∃ tail, q.elems = PatElem.lit rt.EntryPrefix :: tail := by
    intro rt hrt
    obtain ⟨text, hdl, hok⟩ := hwf rt hrt
    intro q hq hne
    exact Parse_pattern_anchored hok q hq hne
  constructor
  · intro rt hrt p hp hne hpre
    exact findStringSubmatch_none_of_not_prefix (hanch rt hrt) hp hne hpre
  · unfold Router.Match matchNoPrefilter
    rw [scan_eq_scanNoPrefilter r.Routes conds (path.drop r.BasePath.length) hanch,
      scan_eq_scanNoPrefilter r.Routes conds path hanch]

theorem c10_prefilter_redundant_witness :
    ((∀ rt ∈ (Router.mk []
        [{ Conditions := 0,
           Pattern := some ⟨[.lit "/a/".data, .group ⟨true, [.single '/']⟩], true⟩,
           Vars := [("x".data, 0)], EntryPrefix := "/a/".data,
           IsPrefix := false, Handler := 7 }]).Routes,
      ∀ p, rt.Pattern = some p → rt.EntryPrefix ≠ [] →
        rt.EntryPrefix.isPrefixOf "/b/9".data = false →
        findStringSubmatch p "/b/9".data = none) ∧
    (Router.mk []
        [{ Conditions := 0,
           Pattern := some ⟨[.lit "/a/".data, .group ⟨true, [.single '/']⟩], true⟩,
           Vars := [("x".data, 0)], EntryPrefix := "/a/".data,
           IsPrefix := false, Handler := 7 }]).Match 0 "/b/9".data =
      matchNoPrefilter (Router.mk []
        [{ Conditions := 0,
           Pattern := some ⟨[.lit "/a/".data, .group ⟨true, [.single '/']⟩], true⟩,
           Vars := [("x".data, 0)], EntryPrefix := "/a/".data,
           IsPrefix := false, Handler := 7 }]) 0 "/b/9".data) :=
  c10_prefilter_redundant_for_pattern_routes _ 0 "/b/9".data
    (by
      intro rt hrt
      refine ⟨"/a/\x7bx\x7d".data, 0, ?_⟩
      simp only [List.mem_singleton] at hrt
      subst hrt
      decide)

/-! ## C9 -/

theorem tryGroupLen_caps_length {g : GroupPat} {s : Str}
    {cont : Str → Option (List Str × Str)} {n : Nat}
    (hcont : ∀ s' caps rem, cont s' = some (caps, rem) → caps.length = n) :
    ∀ k caps rem, tryGroupLen g s cont k = some (caps, rem) → caps.length = n + 1 := by
  intro k
  induction k with
  | zero => intro caps rem h; simp [tryGroupLen] at h
  | succ k ih =>
    intro caps rem h
    unfold tryGroupLen at h
    split at h
    · split at h
      · rename_i out caps' rem' heq
        rw [Option.some.injEq, Prod.mk.injEq] at h
        obtain ⟨h1, -⟩ := h
        rw [← h1, List.length_cons, hcont _ _ _ heq]
      · exact ih caps rem h
    · exact ih caps rem h

theorem matchSeq_caps_length :
    ∀ (es : List PatElem) (s : Str) (aE : Bool) (caps : List Str) (rem : Str),
      matchSeq es s aE = some (caps, rem) → caps.length = countGroups es := by
  intro es
  induction es with
  | nil =>
    intro s aE caps rem h
    unfold matchSeq at h
    split at h
    · split at h
      · rw [Option.some.injEq, Prod.mk.injEq] at h
        obtain ⟨h1, -⟩ := h
        rw [← h1]
        rfl
      · exact Option.noConfusion h
    · rw [Option.some.injEq, Prod.mk.injEq] at h
      obtain ⟨h1, -⟩ := h
      rw [← h1]
      rfl
  | cons e rest ih =>
    cases e with
    | lit l =>
      intro s aE caps rem h
      unfold matchSeq at h
      split at h
      · rw [ih _ _ _ _ h]
        simp [countGroups, List.countP_cons]
      · exact Option.noConfusion h
    | group g =>
      intro s aE caps rem h
      unfold matchSeq at h
      have hg := tryGroupLen_caps_length
        (fun s' caps' rem' hc => ih s' aE caps' rem' hc) s.length caps rem h
      rw [hg]
      simp only [countGroups, List.countP_cons]
      simp

theorem findStringSubmatch_length {p : RoutePattern} {s : Str} {values : List Str}
    (h : findStringSubmatch p s = some values) :
    values.length = 1 + countGroups p.elems := by
  unfold findStringSubmatch at h
  split at h
  · rename_i out caps rem heq
    rw [Option.some.injEq] at h
    rw [← h]
    simp only [List.length_cons]
    rw [matchSeq_caps_length _ _ _ _ _ heq]
    omega
  · exact Option.noConfusion h

/-- The named variables of an occurrence list with their occurrence
indices, in declaration order (the contents `collectVars` adds to the
name-to-position map). -/
def namedVars : List (Str × VarOcc) → Nat → List (Str × Nat)
  | [], _ => []
  | (_, occ) :: rest, i =>
    (if occ.name ≠ "_".data then [(occ.name, i)] else []) ++ namedVars rest (i + 1)

theorem collectVars_vars :
    ∀ (pairs : List (Str × VarOcc)) (i : Nat) (vars0 : List (Str × Nat))
      (raw : List RawElem) (vars : List (Str × Nat)),
      collectVars pairs i vars0 = .ok (raw, vars) →
      vars = vars0 ++ namedVars pairs i := by
  intro pairs
  induction pairs with
  | nil =>
    intro i vars0 raw vars h
    unfold collectVars at h
    rw [Except.ok.injEq, Prod.mk.injEq] at h
    obtain ⟨-, h2⟩ := h
    rw [← h2]
    simp [namedVars]
  | cons pr rest ih =>
    obtain ⟨chunk, occ⟩ := pr
    intro i vars0 raw vars h
    unfold collectVars at h
    try simp only [] at h
    repeat' split at h
    all_goals
      first
      | exact Except.noConfusion h
      | (rw [Except.ok.injEq, Prod.mk.injEq] at h
         obtain ⟨-, h2⟩ := h
         have hih := ih _ _ _ _ (by assumption)
         rw [← h2, hih]
         by_cases hname : occ.name ≠ "_".data <;>
           simp [namedVars, hname, List.append_assoc])

/-- Number of capture groups among the raw pattern elements. -/
def countRawGroups (raw : List RawElem) : Nat :=
  raw.countP (fun e => match e with | .group _ => true | _ => false)

theorem collectVars_raw_groups :
    ∀ (pairs : List (Str × VarOcc)) (i : Nat) (vars0 : List (Str × Nat))
      (raw : List RawElem) (vars : List (Str × Nat)),
      collectVars pairs i vars0 = .ok (raw, vars) →
      countRawGroups raw = pairs.length := by
  intro pairs
  induction pairs with
  | nil =>
    intro i vars0 raw vars h
    unfold collectVars at h
    rw [Except.ok.injEq, Prod.mk.injEq] at h
    obtain ⟨h1, -⟩ := h
    rw [← h1]
    rfl
  | cons pr rest ih =>
    obtain ⟨chunk, occ⟩ := pr
    intro i vars0 raw vars h
    unfold collectVars at h
    try simp only [] at h
    repeat' split at h
    all_goals
      first
      | exact Except.noConfusion h
      | (rw [Except.ok.injEq, Prod.mk.injEq] at h
         obtain ⟨h1, -⟩ := h
         have hih := ih _ _ _ _ (by assumption)
         rw [← h1, List.length_cons, ← hih]
         by_cases hchunk : chunk ≠ [] <;>
           simp [countRawGroups, hchunk, List.countP_cons, List.countP_append])

theorem compileElems_groups :
    ∀ (raw : List RawElem) (es : List PatElem), compileElems raw = .ok es →
      countGroups es = countRawGroups raw := by
  intro raw
  induction raw with
  | nil =>
    intro es h
    unfold compileElems at h
    rw [Except.ok.injEq] at h
    rw [← h]
    rfl
  | cons el rest ih =>
    intro es h
    unfold compileElems at h
    match el with
    | .lit str =>
      try simp only [] at h
      split at h
      · exact Except.noConfusion h
      · rename_i es' heq
        rw [Except.ok.injEq] at h
        rw [← h]
        have hih := ih _ heq
        simp only [countGroups, countRawGroups] at hih ⊢
        simp [List.countP_cons, hih]
    | .group body =>
      try simp only [] at h
      split at h
      · exact Except.noConfusion h
      · split at h
        · exact Except.noConfusion h
        · rename_i es' heq
          rw [Except.ok.injEq] at h
          rw [← h]
          have hih := ih _ heq
          simp only [countGroups, countRawGroups] at hih ⊢
          simp [List.countP_cons, hih]

theorem countRawGroups_append_lit (raw : List RawElem) (t : Str) :
    countRawGroups (raw ++ (if t ≠ [] then [RawElem.lit t] else [])) =
      countRawGroups raw := by
  by_cases ht : t ≠ [] <;> simp [countRawGroups, ht, List.countP_append]

theorem namedVars_lookup :
    ∀ (pairs : List (Str × VarOcc)) (i : Nat) (name : Str) (k : Nat),
      (namedVars pairs i).lookup name = some k →
      ∃ idx pr, k = i + idx ∧ pairs.get? idx = some pr ∧ pr.2.name = name ∧
        name ≠ "_".data := by
  intro pairs
  induction pairs with
  | nil => intro i name k h; simp [namedVars, List.lookup] at h
  | cons pr rest ih =>
    obtain ⟨chunk, occ⟩ := pr
    intro i name k h
    simp only [namedVars] at h
    by_cases hname : occ.name ≠ "_".data
    · rw [if_pos hname, List.singleton_append] at h
      unfold List.lookup at h
      split at h
      · rename_i hbe
        have hnm : name = occ.name := eq_of_beq hbe
        rw [Option.some.injEq] at h
        refine ⟨0, (chunk, occ), by omega, rfl, hnm.symm, ?_⟩
        rw [hnm]
        exact hname
      · obtain ⟨idx, pr', hk, hget, hn, hne⟩ := ih (i + 1) name k h
        exact ⟨idx + 1, pr', by omega, by simpa using hget, hn, hne⟩
    · rw [if_neg hname, List.nil_append] at h
      obtain ⟨idx, pr', hk, hget, hn, hne⟩ := ih (i + 1) name k h
      exact ⟨idx + 1, pr', by omega, by simpa using hget, hn, hne⟩

theorem lookup_map_values (l : List (Str × Nat)) (f : Nat → Str) (name : Str) :
    (l.map (fun nv => (nv.1, f nv.2))).lookup name = (l.lookup name).map f := by
  induction l with
  | nil => rfl
  | cons pr rest ih =>
    obtain ⟨a, b⟩ := pr
    simp only [List.map_cons, List.lookup]
    cases name == a <;> simp [ih]

theorem Parse_ok_decomp {text : Str} {rt : Route} (hok : Route.Parse text = .ok rt) :
    ∃ toks pp, splitRule text = .ok (toks, pp) ∧
      (((scanVars (applySuffix pp).2).1 = [] ∧ rt.Pattern = none ∧ rt.Vars = []) ∨
       (∃ raw vars es,
         collectVars (scanVars (applySuffix pp).2).1 0 [] = .ok (raw, vars) ∧
         rt.Vars = vars ∧
         rt.Pattern = some ⟨es, !(applySuffix pp).1⟩ ∧
         compileElems (raw ++ (if (scanVars (applySuffix pp).2).2 ≠ []
            then [RawElem.lit (scanVars (applySuffix pp).2).2] else [])) = .ok es)) := by
  unfold Route.Parse at hok
  split at hok
  · exact Except.noConfusion hok
  · rename_i conditions pathPattern hsp
    split at hok
    · exact Except.noConfusion hok
    · rename_i conds hconds
      try simp only [] at hok
      split at hok
      · rename_i emp hscan
        rw [Except.ok.injEq] at hok
        subst hok
        refine ⟨conditions, pathPattern, hsp, Or.inl ⟨?_, rfl, rfl⟩⟩
        rw [hscan]
      · rename_i firstChunk occ0 morePairs trailing hscan
        split at hok
        · exact Except.noConfusion hok
        · rename_i rawv varsv hcollect
          try simp only [] at hok
          split at hok
          · exact Except.noConfusion hok
          · rename_i es hcompile
            rw [Except.ok.injEq] at hok
            subst hok
            refine ⟨conditions, pathPattern, hsp, Or.inr ⟨rawv, varsv, es, ?_, rfl, rfl, ?_⟩⟩
            · rw [show (scanVars (applySuffix pathPattern).2).1 =
                (firstChunk, occ0) :: morePairs by rw [hscan]]
              exact hcollect
            · rw [show (scanVars (applySuffix pathPattern).2).2 = trailing by rw [hscan]]
              exact hcompile

theorem routeStep_none_shape {rt : Route} {conds : CondFlags} {path : Str} {m : RMatch}
    (hpat : rt.Pattern = none) (hm : routeStep rt conds path = some m) :
    m = ⟨rt, path, []⟩ := by
  unfold routeStep at hm
  try simp only [] at hm
  repeat' split at hm
  all_goals
    first
    | exact Option.noConfusion hm
    | (rw [Option.some.injEq] at hm; exact hm.symm)
    | simp_all

theorem routeStep_pattern_shape {rt : Route} {conds : CondFlags} {path : Str}
    {m : RMatch} {p : RoutePattern}
    (hpat : rt.Pattern = some p) (hm : routeStep rt conds path = some m) :
    ∃ values, findStringSubmatch p path = some values ∧
      values.length = 1 + rt.Vars.length ∧ m = ⟨rt, path, values.tail⟩ := by
  unfold routeStep at hm
  try simp only [] at hm
  repeat' split at hm
  all_goals
    first
    | exact Option.noConfusion hm
    | (rename_i pat heqp hlen
       have hpe : pat = p := by
         rw [heqp] at hpat
         exact Option.some.inj hpat
       rw [hpe] at hlen hm
       rw [Option.some.injEq] at hm
       cases hff : findStringSubmatch p path with
       | none =>
         rw [hff] at hlen
         simp only [Option.getD_none, List.length_nil] at hlen
         exact absurd hlen (by omega)
       | some values =>
         rw [hff] at hlen hm
         simp only [Option.getD_some] at hlen hm
         exact ⟨values, rfl, hlen, hm.symm⟩)
    | simp_all

theorem get?_getD {l : List Str} {k : Nat} {v : Str} (h : l.get? k = some v) :
    l.getD k [] = v := by
  induction l generalizing k with
  | nil => simp at h
  | cons a rest ih =>
    match k with
    | 0 =>
      rw [List.get?_cons_zero, Option.some.injEq] at h
      rw [← h]
      rfl
    | k + 1 =>
      rw [List.get?_cons_succ] at h
      rw [List.getD_cons_succ]
      exact ih h

theorem RMatch_Vars_lookup (m : RMatch) (name : Str) {k : Nat} {v : Str}
    (hlook : m.route.Vars.lookup name = some k)
    (hv : m.values.get? k = some v) :
    (RMatch.Vars m).lookup name = some v := by
  unfold RMatch.Vars
  exact (lookup_map_values m.route.Vars (fun i => m.values.getD i []) name).trans
    (by rw [hlook]; exact congrArg some (get?_getD hv))

theorem RMatch_Var_eq (m : RMatch) (name : Str) {k : Nat} {v : Str}
    (hlook : m.route.Vars.lookup name = some k)
    (hv : m.values.get? k = some v) :
    RMatch.Var m name [] = v := by
  have hne : m.values.isEmpty = false := by
    cases hvv : m.values with
    | nil => rw [hvv] at hv; simp at hv
    | cons a l => rfl
  have h1 : RMatch.Var m name [] = m.values.getD k [] := by
    unfold RMatch.Var
    rw [hlook, hne]
    rfl
  rw [h1]
  exact get?_getD hv

/-- C9: for every successfully compiled rule and every match it
produces, `Values` lists one captured substring per variable occurrence
of the path pattern, in left-to-right declaration order (the list has
exactly one entry per occurrence reported by the variable scan, and the
position recorded for each named variable is its occurrence index), and
`Vars`/`Var` map each named variable to the capture at its declaration
position. -/
theorem c9_vars_in_declaration_order (text : Str) (rt : Route) (conds : CondFlags)
    (path : Str) (m : RMatch)
    (hok : Route.Parse text = .ok rt)
    (hm : routeStep rt conds path = some m) :
    RMatch.Values m = m.values ∧
    ∃ toks pp, splitRule text = .ok (toks, pp) ∧
      m.values.length = (scanVars (applySuffix pp).2).1.length ∧
      (∀ name k, rt.Vars.lookup name = some k →
        ∃ pr v, (scanVars (applySuffix pp).2).1.get? k = some pr ∧ pr.2.name = name ∧
          m.values.get? k = some v ∧
          (RMatch.Vars m).lookup name = some v ∧
          RMatch.Var m name [] = v) := by
  refine ⟨rfl, ?_⟩
  obtain ⟨toks, pp, hsp, hcase⟩ := Parse_ok_decomp hok
  refine ⟨toks, pp, hsp, ?_⟩
  rcases hcase with ⟨hscan0, hpat, hvars⟩ | ⟨raw, vars, es, hcollect, hvars, hpat, hcompile⟩
  · have hm0 := routeStep_none_shape hpat hm
    subst hm0
    constructor
    · rw [hscan0]
      rfl
    · intro name k hlook
      rw [hvars] at hlook
      simp [List.lookup] at hlook
  · obtain ⟨values, hf, hlen, hm1⟩ := routeStep_pattern_shape hpat hm
    subst hm1
    have hveq : vars = namedVars (scanVars (applySuffix pp).2).1 0 := by
      have := collectVars_vars _ _ _ _ _ hcollect
      simpa using this
    have hglen : countGroups es = (scanVars (applySuffix pp).2).1.length := by
      rw [compileElems_groups _ _ hcompile, countRawGroups_append_lit,
        collectVars_raw_groups _ _ _ _ _ hcollect]
    have hflen := findStringSubmatch_length hf
    simp only [] at hflen
    have htail : values.tail.length = (scanVars (applySuffix pp).2).1.length := by
      rw [List.length_tail, hflen, hglen]
      omega
    constructor
    · exact htail
    · intro name k hlook
      rw [hvars, hveq] at hlook
      obtain ⟨idx, pr, hk, hget, hn, hne⟩ := namedVars_lookup _ _ _ _ hlook
      have hkidx : k = idx := by omega
      subst hkidx
      have hklt : k < (scanVars (applySuffix pp).2).1.length := by
        obtain ⟨hlt, -⟩ := List.get?_eq_some.mp hget
        exact hlt
      have hkv : k < values.tail.length := by rw [htail]; exact hklt
      obtain ⟨v, hv⟩ : ∃ v, values.tail.get? k = some v := by
        cases hvv : values.tail.get? k with
        | some v => exact ⟨v, rfl⟩
        | none =>
          rw [List.get?_eq_none] at hvv
          omega
      refine ⟨pr, v, hget, hn, hv, ?_, ?_⟩
      · exact RMatch_Vars_lookup ⟨rt, path, values.tail⟩ name
          (show rt.Vars.lookup name = some k by rw [hvars, hveq]; exact hlook) hv
      · exact RMatch_Var_eq ⟨rt, path, values.tail⟩ name
          (show rt.Vars.lookup name = some k by rw [hvars, hveq]; exact hlook) hv

/-- The compiled route of the spec's Scenario A,
`"/user/\x7bid:[0-9]+\x7d/\x7baction\x7d"`. -/
def scenarioARoute : Route :=
  { Conditions := 0,
    Pattern := some ⟨[.lit "/user/".data, .group ⟨false, [.range '0' '9']⟩,
                      .lit "/".data, .group ⟨true, [.single '/']⟩], true⟩,
    Vars := [("id".data, 0), ("action".data, 1)],
    EntryPrefix := "/user/".data, IsPrefix := false, Handler := 0 }

/-- The match Scenario A produces for the path `"/user/42/edit"`. -/
def scenarioAMatch : RMatch :=
  ⟨scenarioARoute, "/user/42/edit".data, ["42".data, "edit".data]⟩

theorem c9_vars_in_declaration_order_witness :
    (Route.Parse "/user/\x7bid:[0-9]+\x7d/\x7baction\x7d".data = .ok scenarioARoute ∧
     routeStep scenarioARoute 0 "/user/42/edit".data = some scenarioAMatch ∧
     RMatch.Vars scenarioAMatch =
       [("id".data, "42".data), ("action".data, "edit".data)] ∧
     RMatch.Var scenarioAMatch "id".data [] = "42".data ∧
     RMatch.Var scenarioAMatch "action".data [] = "edit".data) ∧
    (RMatch.Values scenarioAMatch = scenarioAMatch.values ∧
     ∃ toks pp,
       splitRule "/user/\x7bid:[0-9]+\x7d/\x7baction\x7d".data = .ok (toks, pp) ∧
       scenarioAMatch.values.length = (scanVars (applySuffix pp).2).1.length ∧
       (∀ name k, scenarioARoute.Vars.lookup name = some k →
         ∃ pr v, (scanVars (applySuffix pp).2).1.get? k = some pr ∧ pr.2.name = name ∧
           scenarioAMatch.values.get? k = some v ∧
           (RMatch.Vars scenarioAMatch).lookup name = some v ∧
           RMatch.Var scenarioAMatch name [] = v)) :=
  ⟨by decide,
   c9_vars_in_declaration_order "/user/\x7bid:[0-9]+\x7d/\x7baction\x7d".data
     scenarioARoute 0 "/user/42/edit".data scenarioAMatch (by decide) (by decide)⟩

end GoHttpd
